import Mathlib

/-!
Shallow embedding of the YCSB-cpp BTreeDB adapter (`src/btree/btree_db.cc`,
`src/btree/btree_db.h`): the row codec (`SerializeRow`, `DeserializeRow`,
`DeserializeRowFilter`), the CRUD operations (`ReadSingle`, `ScanSingle`,
`UpdateSingle`, `InsertSingle`, `DeleteSingle`) over the external ordered
key-value engine, and the reference-counted shared-instance lifecycle
(`Init`, `Cleanup`).

Bytes are modelled as `Fin 256`; C++ `std::string` buffers are `List Byte`.
The 4-byte little-endian length prefixes written by `SerializeRow`
(`uint32_t len = field.name.size()`) are modelled by `u32le`, which truncates
a `Nat` length to its low 32 bits exactly as the C++ narrowing does.
Out-of-bounds reads, which are undefined behaviour in the C++ decoder,
are modelled as `none`.
-/

namespace BTreeDB

/-- A byte, the element of C++ `std::string` buffers. -/
abbrev Byte := Fin 256

/-- A byte string. -/
abbrev Bytes := List Byte

/-- DB::Field from core/db.h: a pair of byte strings `(name, value)`. -/
structure Field where
  name : Bytes
  value : Bytes
deriving DecidableEq

/-- Modelled from the spec: the CRUD status surface `{OK, NotFound, Error}`
(the `DB::Status` values used by `btree_db.cc`; core/db.h is an external
collaborator). -/
inductive Status where
  | kOK
  | kNotFound
  | kError
deriving DecidableEq

/-- The four little-endian bytes of `(uint32_t) n`, as appended by
`data.append(reinterpret_cast<char *>(&len), sizeof(uint32_t))`. -/
def u32le (n : Nat) : Bytes :=
  [⟨n % 256, by omega⟩, ⟨n / 256 % 256, by omega⟩,
   ⟨n / 65536 % 256, by omega⟩, ⟨n / 16777216 % 256, by omega⟩]

/-- The encoding of one field: length-prefixed name then length-prefixed
value (the body of the `SerializeRow` loop). -/
def serializeField (f : Field) : Bytes :=
  u32le f.name.length ++ f.name ++ u32le f.value.length ++ f.value

/-- BTreeDB::SerializeRow: concatenation of the field encodings in order. -/
def SerializeRow : List Field → Bytes
  | [] => []
  | f :: rest => serializeField f ++ SerializeRow rest

/-- Read a 4-byte little-endian `uint32_t` from the front of the buffer
(`len = *reinterpret_cast<const uint32_t *>(p); p += sizeof(uint32_t)`).
`none` models the out-of-bounds read when fewer than 4 bytes remain. -/
def readU32 : Bytes → Option (Nat × Bytes)
  | b0 :: b1 :: b2 :: b3 :: rest =>
      some (b0.val + 256 * b1.val + 65536 * b2.val + 16777216 * b3.val, rest)
  | _ => none

/-- Read `n` raw bytes from the front of the buffer
(`std::string field(p, len); p += len`); `none` models the
out-of-bounds read when fewer than `n` bytes remain. -/
def readBytes (n : Nat) (l : Bytes) : Option (Bytes × Bytes) :=
  if n ≤ l.length then some (l.take n, l.drop n) else none

/-- One iteration of the deserialization loops: length-prefixed name, then
length-prefixed value. -/
def readField (l : Bytes) : Option (Field × Bytes) :=
  (readU32 l).bind fun p1 =>
    (readBytes p1.1 p1.2).bind fun p2 =>
      (readU32 p2.2).bind fun p3 =>
        (readBytes p3.1 p3.2).map fun p4 => (⟨p2.1, p4.1⟩, p4.2)

/-- The `while (p != lim)` loop of `DeserializeRow`, with a fuel argument
for structural recursion; each iteration consumes at least four bytes, so
`fuel = l.length` always suffices (`deserializeRowAux_fuel`). -/
def deserializeRowAux : Nat → Bytes → Option (List Field)
  | _, [] => some []
  | 0, _ :: _ => none
  | fuel + 1, b :: l =>
    match readField (b :: l) with
    | none => none
    | some (f, rest) => (deserializeRowAux fuel rest).map (f :: ·)

/-- BTreeDB::DeserializeRow: decode length-prefixed fields until the buffer
is exhausted; `none` models the C++ out-of-bounds UB on malformed input. -/
def DeserializeRow (l : Bytes) : Option (List Field) :=
  deserializeRowAux l.length l

/-- The `while (p != lim && filter_iter != fields.end())` loop of
`DeserializeRowFilter`: an ordered two-pointer merge of the decoded fields
against the requested names, again with adequate fuel. -/
def deserializeRowFilterAux : Nat → Bytes → List Bytes → Option (List Field)
  | _, _, [] => some []
  | _, [], _ :: _ => some []
  | 0, _ :: _, _ :: _ => none
  | fuel + 1, b :: l, fname :: ftail =>
    match readField (b :: l) with
    | none => none
    | some (f, rest) =>
      if fname = f.name then
        (deserializeRowFilterAux fuel rest ftail).map (f :: ·)
      else
        deserializeRowFilterAux fuel rest (fname :: ftail)

/-- BTreeDB::DeserializeRowFilter: one-pass filtered decode. The result is
the accumulated `values` vector when the loop terminates; the trailing
`assert(values.size() == fields.size())` of the C++ is NOT part of the
returned value (in release builds the assert is a no-op and the short
result is returned silently). -/
def DeserializeRowFilter (l : Bytes) (fields : List Bytes) : Option (List Field) :=
  deserializeRowFilterAux l.length l fields

/-- A field whose name and value sizes fit the 32-bit length prefix. -/
def WfField (f : Field) : Prop :=
  f.name.length < 4294967296 ∧ f.value.length < 4294967296

/-- All fields of the row fit the 32-bit length prefixes. -/
def WfRow (R : List Field) : Prop := ∀ f ∈ R, WfField f

instance (f : Field) : Decidable (WfField f) := by
  unfold WfField; infer_instance

instance (R : List Field) : Decidable (WfRow R) := by
  unfold WfRow; infer_instance

theorem readU32_u32le (n : Nat) (hn : n < 4294967296) (rest : Bytes) :
    readU32 (u32le n ++ rest) = some (n, rest) := by
  simp only [u32le, List.cons_append, List.nil_append, readU32,
    Option.some.injEq, Prod.mk.injEq]
  exact ⟨by omega, trivial⟩

theorem readBytes_append (xs rest : Bytes) :
    readBytes xs.length (xs ++ rest) = some (xs, rest) := by
  simp [readBytes, List.take_left, List.drop_left]

theorem readField_serializeField (f : Field) (hf : WfField f) (rest : Bytes) :
    readField (serializeField f ++ rest) = some (f, rest) := by
  obtain ⟨hn, hv⟩ := hf
  simp only [serializeField, List.append_assoc, readField,
    readU32_u32le _ hn, readU32_u32le _ hv, readBytes_append,
    Option.some_bind, Option.map_some']

theorem readU32_length {l rest : Bytes} {n : Nat}
    (h : readU32 l = some (n, rest)) : rest.length + 4 = l.length := by
  match l, h with
  | b0 :: b1 :: b2 :: b3 :: r, h =>
    simp only [readU32, Option.some.injEq, Prod.mk.injEq] at h
    simp [← h.2]

theorem readBytes_length {n : Nat} {l taken rest : Bytes}
    (h : readBytes n l = some (taken, rest)) : rest.length ≤ l.length := by
  simp only [readBytes] at h
  split at h
  · simp only [Option.some.injEq, Prod.mk.injEq] at h
    simp [← h.2]
  · exact absurd h (by simp)

theorem readField_length {l rest : Bytes} {f : Field}
    (h : readField l = some (f, rest)) : rest.length < l.length := by
  simp only [readField, Option.bind_eq_some, Option.map_eq_some'] at h
  obtain ⟨p1, h1, p2, h2, p3, h3, p4, h4, heq⟩ := h
  have e1 := readU32_length h1
  have e2 := readBytes_length h2
  have e3 := readU32_length h3
  have e4 := readBytes_length h4
  have : rest = p4.2 := congrArg Prod.snd heq.symm
  subst this
  omega

theorem deserializeRowAux_fuel (f1 : Nat) :
    ∀ (f2 : Nat) (l : Bytes), l.length ≤ f1 → l.length ≤ f2 →
      deserializeRowAux f1 l = deserializeRowAux f2 l := by
  induction f1 with
  | zero =>
    intro f2 l h1 _
    have hl : l = [] := List.length_eq_zero.mp (Nat.le_zero.mp h1)
    subst hl
    cases f2 <;> rfl
  | succ n ih =>
    intro f2 l h1 h2
    match l with
    | [] => cases f2 <;> rfl
    | b :: t =>
      obtain ⟨m, rfl⟩ : ∃ m, f2 = m + 1 :=
        ⟨f2 - 1, by simp at h2; omega⟩
      simp only [deserializeRowAux]
      cases hr : readField (b :: t) with
      | none => rfl
      | some p =>
        obtain ⟨f, rest⟩ := p
        have hlt := readField_length hr
        simp only [List.length_cons] at h1 h2 hlt
        dsimp only
        rw [ih m rest (by omega) (by omega)]

theorem deserializeRowFilterAux_fuel (f1 : Nat) :
    ∀ (f2 : Nat) (l : Bytes) (fs : List Bytes), l.length ≤ f1 → l.length ≤ f2 →
      deserializeRowFilterAux f1 l fs = deserializeRowFilterAux f2 l fs := by
  induction f1 with
  | zero =>
    intro f2 l fs h1 _
    have hl : l = [] := List.length_eq_zero.mp (Nat.le_zero.mp h1)
    subst hl
    cases f2 <;> cases fs <;> rfl
  | succ n ih =>
    intro f2 l fs h1 h2
    match l, fs with
    | [], fs => cases f2 <;> cases fs <;> rfl
    | b :: t, [] => cases f2 <;> rfl
    | b :: t, fn :: ft =>
      obtain ⟨m, rfl⟩ : ∃ m, f2 = m + 1 :=
        ⟨f2 - 1, by simp at h2; omega⟩
      simp only [deserializeRowFilterAux]
      cases hr : readField (b :: t) with
      | none => rfl
      | some p =>
        obtain ⟨f, rest⟩ := p
        have hlt := readField_length hr
        simp only [List.length_cons] at h1 h2 hlt
        dsimp only
        by_cases hcond : fn = f.name
        · simp only [if_pos hcond]
          rw [ih m rest ft (by omega) (by omega)]
        · simp only [if_neg hcond]
          rw [ih m rest (fn :: ft) (by omega) (by omega)]

theorem DeserializeRow_step {l rest : Bytes} {f : Field}
    (hne : l ≠ []) (h : readField l = some (f, rest)) :
    DeserializeRow l = (DeserializeRow rest).map (f :: ·) := by
  match l, hne with
  | b :: t, _ =>
    have hlt := readField_length h
    simp only [List.length_cons] at hlt
    unfold DeserializeRow
    simp only [List.length_cons, deserializeRowAux, h]
    rw [deserializeRowAux_fuel t.length rest.length rest (by omega) (le_refl _)]

theorem DeserializeRowFilter_nil_fields (l : Bytes) :
    DeserializeRowFilter l [] = some [] := by
  cases l <;> rfl

theorem DeserializeRowFilter_nil_buf (fs : List Bytes) :
    DeserializeRowFilter [] fs = some [] := by
  cases fs <;> rfl

theorem DeserializeRowFilter_match {l rest : Bytes} {f : Field} {fn : Bytes}
    {ft : List Bytes} (hne : l ≠ []) (h : readField l = some (f, rest))
    (hm : fn = f.name) :
    DeserializeRowFilter l (fn :: ft) =
      (DeserializeRowFilter rest ft).map (f :: ·) := by
  match l, hne with
  | b :: t, _ =>
    have hlt := readField_length h
    simp only [List.length_cons] at hlt
    unfold DeserializeRowFilter
    simp only [List.length_cons, deserializeRowFilterAux, h, if_pos hm]
    rw [deserializeRowFilterAux_fuel t.length rest.length rest ft
      (by omega) (le_refl _)]

theorem DeserializeRowFilter_skip {l rest : Bytes} {f : Field} {fn : Bytes}
    {ft : List Bytes} (hne : l ≠ []) (h : readField l = some (f, rest))
    (hm : fn ≠ f.name) :
    DeserializeRowFilter l (fn :: ft) = DeserializeRowFilter rest (fn :: ft) := by
  match l, hne with
  | b :: t, _ =>
    have hlt := readField_length h
    simp only [List.length_cons] at hlt
    unfold DeserializeRowFilter
    simp only [List.length_cons, deserializeRowFilterAux, h, if_neg hm]
    rw [deserializeRowFilterAux_fuel t.length rest.length rest (fn :: ft)
      (by omega) (le_refl _)]

theorem serializeField_append_ne_nil (f : Field) (rest : Bytes) :
    serializeField f ++ rest ≠ [] := by
  simp [serializeField, u32le]

theorem serializeRow_roundtrip (R : List Field) (hwf : WfRow R) :
    DeserializeRow (SerializeRow R) = some R := by
  induction R with
  | nil => rfl
  | cons f R' ih =>
    have hf : WfField f := hwf f (List.mem_cons_self f R')
    have hwf' : WfRow R' := fun g hg => hwf g (List.mem_cons_of_mem f hg)
    have hstep : SerializeRow (f :: R') = serializeField f ++ SerializeRow R' := rfl
    rw [hstep,
      DeserializeRow_step (serializeField_append_ne_nil f _)
        (readField_serializeField f hf _),
      ih hwf']
    rfl

theorem deserializeRowFilter_sublist (R : List Field) :
    ∀ (S : List Bytes), WfRow R → S.Sublist (R.map Field.name) →
      ∃ fs, DeserializeRowFilter (SerializeRow R) S = some fs ∧
        fs.map Field.name = S ∧ fs.Sublist R := by
  induction R with
  | nil =>
    intro S _ hS
    have hSnil : S = [] := List.sublist_nil.mp (by simpa using hS)
    subst hSnil
    exact ⟨[], DeserializeRowFilter_nil_buf [], rfl, List.nil_sublist []⟩
  | cons f R' ih =>
    intro S hwf hS
    have hf : WfField f := hwf f (List.mem_cons_self f R')
    have hwf' : WfRow R' := fun g hg => hwf g (List.mem_cons_of_mem f hg)
    have hstep : SerializeRow (f :: R') = serializeField f ++ SerializeRow R' := rfl
    have hne : SerializeRow (f :: R') ≠ [] := by
      rw [hstep]; exact serializeField_append_ne_nil f _
    have hread : readField (SerializeRow (f :: R')) = some (f, SerializeRow R') := by
      rw [hstep]; exact readField_serializeField f hf _
    cases S with
    | nil => exact ⟨[], DeserializeRowFilter_nil_fields _, rfl, List.nil_sublist _⟩
    | cons n S' =>
      by_cases hn : n = f.name
      · subst hn
        have hS' : S'.Sublist (R'.map Field.name) := by
          cases hS with
          | cons _ h => exact List.sublist_of_cons_sublist h
          | cons₂ _ h => exact h
        obtain ⟨fs, hfs, hmap, hsub⟩ := ih S' hwf' hS'
        refine ⟨f :: fs, ?_, ?_, hsub.cons₂ f⟩
        · rw [DeserializeRowFilter_match hne hread rfl, hfs]; rfl
        · simp [hmap]
      · have hS2 : (n :: S').Sublist (R'.map Field.name) := by
          cases hS with
          | cons _ h => exact h
          | cons₂ _ h => exact absurd rfl hn
        obtain ⟨fs, hfs, hmap, hsub⟩ := ih (n :: S') hwf' hS2
        exact ⟨fs, by rw [DeserializeRowFilter_skip hne hread hn, hfs],
          hmap, hsub.cons f⟩

/-- C1: decoding the encoding of any non-empty row (whose field names and
values fit the 32-bit length prefixes) without a filter yields the row
itself: `DeserializeRow ∘ SerializeRow = some`. -/
theorem c1_serialize_deserialize_id (R : List Field) (_hR : R ≠ [])
    (hwf : WfRow R) : DeserializeRow (SerializeRow R) = some R :=
  serializeRow_roundtrip R hwf

theorem c1_witness :
    (([⟨[97], [49]⟩] : List Field) ≠ []) ∧ WfRow [⟨[97], [49]⟩] ∧
      DeserializeRow (SerializeRow [⟨[97], [49]⟩]) = some [⟨[97], [49]⟩] :=
  ⟨by decide, by decide,
    c1_serialize_deserialize_id [⟨[97], [49]⟩] (by decide) (by decide)⟩

/-- C2: for any row `R` whose fields fit the 32-bit length prefixes and any
ordered subsequence `S` of `R`'s field names, the filtered decode of the
encoding of `R` returns exactly `|S|` fields, in the order of `S`, drawn
(with their stored values) from `R` as a sublist; the walk is the one-pass
ordered two-pointer merge embodied by `deserializeRowFilterAux`. -/
theorem c2_filtered_decode (R : List Field) (S : List Bytes) (hwf : WfRow R)
    (hS : S.Sublist (R.map Field.name)) :
    ∃ fs, DeserializeRowFilter (SerializeRow R) S = some fs ∧
      fs.length = S.length ∧ fs.map Field.name = S ∧ fs.Sublist R := by
  obtain ⟨fs, h1, h2, h3⟩ := deserializeRowFilter_sublist R S hwf hS
  exact ⟨fs, h1, by rw [← h2, List.length_map], h2, h3⟩

theorem c2_witness :
    WfRow [⟨[97], [49]⟩, ⟨[98], [50]⟩] ∧
      (([[98]] : List Bytes).Sublist
        (([⟨[97], [49]⟩, ⟨[98], [50]⟩] : List Field).map Field.name)) ∧
      ∃ fs, DeserializeRowFilter (SerializeRow [⟨[97], [49]⟩, ⟨[98], [50]⟩])
          [[98]] = some fs ∧
        fs.length = ([[98]] : List Bytes).length ∧
        fs.map Field.name = [[98]] ∧
        fs.Sublist [⟨[97], [49]⟩, ⟨[98], [50]⟩] :=
  ⟨by decide, by decide,
    c2_filtered_decode [⟨[97], [49]⟩, ⟨[98], [50]⟩] [[98]] (by decide) (by decide)⟩

/-- C3 (code bug evidence): when a requested name (here `"a"` = `[97]`) never
matches before the encoded buffer (holding only field `"b"` = `[98]`) is
exhausted, `DeserializeRowFilter` returns normally with fewer fields than
requested and signals no error to the caller; the C++ only has a trailing
`assert`, which is compiled out in release builds. -/
theorem c3_silent_truncation :
    DeserializeRowFilter (SerializeRow [⟨[98], [49]⟩]) [[97]] = some [] ∧
      ([] : List Field).length < ([[97]] : List Bytes).length :=
  ⟨by decide, by decide⟩

/-- Modelled from the spec: the state of the external ordered key-value
engine (`cmudb::KVTable`), a map `key → Encoded Row` supporting point `Get`,
`Put` and forward `Seek` iteration; kept as an association list in strictly
ascending key order (`StoreSorted`). -/
abbrev Store (K : Type) := List (K × Bytes)

section Engine

variable {K : Type} [LinearOrder K] [DecidableEq K]

/-- The engine's ordering invariant: keys strictly ascending. -/
def StoreSorted (s : Store K) : Prop :=
  List.Pairwise (fun a b : K × Bytes => a.1 < b.1) s

/-- Modelled from the spec: `KVTable::Get`, a point lookup returning the
stored buffer if the key is present. -/
def kvGet : Store K → K → Option Bytes
  | [], _ => none
  | e :: rest, k => if e.1 = k then some e.2 else kvGet rest k

/-- Modelled from the spec: `KVTable::Put`, create-or-overwrite of one
entry, keeping the entries in ascending key order. -/
def kvPut : Store K → K → Bytes → Store K
  | [], k, v => [(k, v)]
  | e :: rest, k, v =>
    if k < e.1 then (k, v) :: e :: rest
    else if k = e.1 then (k, v) :: rest
    else e :: kvPut rest k v

/-- Modelled from the spec: `KVTable::Seek`, the forward iteration over all
entries with key ≥ k (in stored order). -/
def kvSeek (s : Store K) (k : K) : Store K :=
  s.filter (fun e => decide (k ≤ e.1))

/-- The decode branch shared by `ReadSingle` and `ScanSingle`: filtered when
a field-name list was supplied (`fields != nullptr`), full otherwise. -/
def decodeWith (fields : Option (List Bytes)) (data : Bytes) : Option (List Field) :=
  match fields with
  | some fs => DeserializeRowFilter data fs
  | none => DeserializeRow data

/-- BTreeDB::ReadSingle: point lookup then decode. The store component of
the result records that Read issues no mutating engine call; `none` models
the C++ decode trap on malformed stored data. -/
def ReadSingle (s : Store K) (key : K) (fields : Option (List Bytes)) :
    Option (Store K × Status × List Field) :=
  match kvGet s key with
  | none => some (s, Status.kNotFound, [])
  | some data => (decodeWith fields data).map (fun r => (s, Status.kOK, r))

/-- The `for (int i = 0; !it.isEnd() && i < len; i++)` loop of
`ScanSingle`, walking the Seek iterator and decoding each visited value. -/
def scanLoop (fields : Option (List Bytes)) : Store K → Nat → Option (List (List Field))
  | _, 0 => some []
  | [], _ + 1 => some []
  | e :: rest, n + 1 =>
    (decodeWith fields e.2).bind fun row =>
      (scanLoop fields rest n).map (row :: ·)

/-- BTreeDB::ScanSingle: Seek to the first entry with key ≥ `key`, then
decode up to `len` consecutive entries. Always `kOK` when no decode traps. -/
def ScanSingle (s : Store K) (key : K) (len : Nat) (fields : Option (List Bytes)) :
    Option (Store K × Status × List (List Field)) :=
  (scanLoop fields (kvSeek s key) len).map (fun rows => (s, Status.kOK, rows))

/-- BTreeDB::InsertSingle: serialize the full row and `Put` it. -/
def InsertSingle (s : Store K) (key : K) (values : List Field) : Store K × Status :=
  (kvPut s key (SerializeRow values), Status.kOK)

/-- BTreeDB::UpdateSingle: forwards to `InsertSingle` unchanged. -/
def UpdateSingle (s : Store K) (key : K) (values : List Field) : Store K × Status :=
  InsertSingle s key values

/-- BTreeDB::DeleteSingle: `// Not used` — returns OK, touches nothing. -/
def DeleteSingle (s : Store K) (key : K) : Store K × Status :=
  (s, Status.kOK)

theorem kvGet_kvPut_self (s : Store K) (k : K) (v : Bytes) :
    kvGet (kvPut s k v) k = some v := by
  induction s with
  | nil => simp [kvPut, kvGet]
  | cons e rest ih =>
    by_cases h1 : k < e.1
    · simp [kvPut, if_pos h1, kvGet]
    · by_cases h2 : k = e.1
      · simp [kvPut, if_neg h1, if_pos h2, kvGet]
      · have hne : ¬ e.1 = k := fun h => h2 h.symm
        simp [kvPut, if_neg h1, if_neg h2, kvGet, if_neg hne, ih]

theorem scanLoop_spec (fields : Option (List Bytes)) (l : Store K) :
    ∀ (n : Nat), (∀ e ∈ l, (decodeWith fields e.2).isSome) →
      ∃ rows, scanLoop fields l n = some rows ∧
        rows.length = min n l.length ∧
        (l.take n).map (fun e => decodeWith fields e.2) = rows.map some := by
  induction l with
  | nil =>
    intro n _
    exact ⟨[], by cases n <;> rfl, by simp, by simp⟩
  | cons e rest ih =>
    intro n hdec
    cases n with
    | zero => exact ⟨[], rfl, by simp, by simp⟩
    | succ m =>
      obtain ⟨row, hrow⟩ :=
        Option.isSome_iff_exists.mp (hdec e (List.mem_cons_self e rest))
      obtain ⟨rows, hr1, hr2, hr3⟩ :=
        ih m (fun x hx => hdec x (List.mem_cons_of_mem e hx))
      refine ⟨row :: rows, ?_, ?_, ?_⟩
      · simp [scanLoop, hrow, hr1]
      · simp only [List.length_cons, hr2, List.length_cons]
        omega
      · simp [List.take_succ_cons, hrow, hr3]

/-- C4: Read returns NotFound exactly when the engine holds no entry for the
key; otherwise it returns OK with the stored buffer decoded — filtered
decode when a field-name list was supplied, full decode otherwise (that is
`decodeWith`) — and Read leaves the stored state unchanged. -/
theorem c4_read (s : Store K) (key : K) (fields : Option (List Bytes)) :
    ((∃ st r, ReadSingle s key fields = some (st, Status.kNotFound, r)) ↔
      kvGet s key = none) ∧
    (∀ data, kvGet s key = some data →
      ReadSingle s key fields =
        (decodeWith fields data).map (fun r => (s, Status.kOK, r))) ∧
    (∀ res, ReadSingle s key fields = some res → res.1 = s) := by
  refine ⟨⟨?_, ?_⟩, ?_, ?_⟩
  · rintro ⟨st, r, hres⟩
    cases hget : kvGet s key with
    | none => rfl
    | some data =>
      simp only [ReadSingle, hget, Option.map_eq_some'] at hres
      obtain ⟨r', _, heq⟩ := hres
      simp at heq
  · intro hget
    exact ⟨s, [], by simp [ReadSingle, hget]⟩
  · intro data hget
    simp [ReadSingle, hget]
  · intro res hres
    cases hget : kvGet s key with
    | none =>
      simp only [ReadSingle, hget, Option.some.injEq] at hres
      rw [← hres]
    | some data =>
      simp only [ReadSingle, hget, Option.map_eq_some'] at hres
      obtain ⟨r', _, heq⟩ := hres
      rw [← heq]

/-- C5: Scan returns OK with exactly `min count |{key ≥ startKey}|` rows:
the decoded values of the first `count` entries the Seek iterator visits, in
strictly ascending key order, all with key ≥ startKey; exhausting the
keyspace is not an error. -/
theorem c5_scan (s : Store K) (key : K) (len : Nat) (fields : Option (List Bytes))
    (hs : StoreSorted s) (hdec : ∀ e ∈ s, (decodeWith fields e.2).isSome) :
    ∃ rows, ScanSingle s key len fields = some (s, Status.kOK, rows) ∧
      rows.length = min len (kvSeek s key).length ∧
      List.Pairwise (fun a b : K × Bytes => a.1 < b.1) ((kvSeek s key).take len) ∧
      (∀ e ∈ kvSeek s key, key ≤ e.1) ∧
      ((kvSeek s key).take len).map (fun e => decodeWith fields e.2) = rows.map some := by
  obtain ⟨rows, h1, h2, h3⟩ := scanLoop_spec fields (kvSeek s key) len
    (fun e he => hdec e (List.mem_of_mem_filter he))
  have hp : List.Pairwise (fun a b : K × Bytes => a.1 < b.1) s := hs
  refine ⟨rows, ?_, h2, ?_, ?_, h3⟩
  · simp [ScanSingle, h1]
  · have hps : List.Pairwise (fun a b : K × Bytes => a.1 < b.1) (kvSeek s key) :=
      hp.filter (fun e : K × Bytes => decide (key ≤ e.1))
    exact List.Pairwise.sublist (List.take_sublist len _) hps
  · intro e he
    simpa using List.of_mem_filter he

/-- C6: Update is the very same operation as Insert (it forwards
unchanged): both serialize the full supplied row and overwrite the entry,
so Insert(k, R1) then Update(k, R2) then an unfiltered Read(k) returns
exactly R2, with no merging of R1's fields. -/
theorem c6_update_eq_insert (s : Store K) (k : K) (R1 R2 : List Field)
    (hwf : WfRow R2) :
    (∀ (s2 : Store K) (k2 : K) (v : List Field),
        UpdateSingle s2 k2 v = InsertSingle s2 k2 v) ∧
    ReadSingle ((UpdateSingle ((InsertSingle s k R1).1) k R2).1) k none =
      some ((UpdateSingle ((InsertSingle s k R1).1) k R2).1, Status.kOK, R2) := by
  refine ⟨fun _ _ _ => rfl, ?_⟩
  have hget : kvGet ((UpdateSingle ((InsertSingle s k R1).1) k R2).1) k
      = some (SerializeRow R2) := kvGet_kvPut_self _ _ _
  simp only [ReadSingle, hget, decodeWith, serializeRow_roundtrip R2 hwf,
    Option.map_some']

/-- C7: Delete returns OK, invokes no engine primitive, and leaves the
entire stored state unchanged: a Read after Delete behaves exactly as
before, and a previously stored entry is still returned with OK. -/
theorem c7_delete_noop (s : Store K) (k : K) (fields : Option (List Bytes)) :
    DeleteSingle s k = (s, Status.kOK) ∧
    ReadSingle (DeleteSingle s k).1 k fields = ReadSingle s k fields ∧
    (∀ data r, kvGet s k = some data → decodeWith fields data = some r →
      ReadSingle (DeleteSingle s k).1 k fields
        = some ((DeleteSingle s k).1, Status.kOK, r)) := by
  refine ⟨rfl, rfl, ?_⟩
  intro data r hget hdec
  simp only [DeleteSingle, ReadSingle, hget, hdec, Option.map_some']

end Engine

theorem c4_witness :
    kvGet [((5 : Nat), SerializeRow [⟨[97], [49]⟩])] 5
        = some (SerializeRow [⟨[97], [49]⟩]) ∧
      ReadSingle [((5 : Nat), SerializeRow [⟨[97], [49]⟩])] 5 none =
        (decodeWith none (SerializeRow [⟨[97], [49]⟩])).map
          (fun r => ([((5 : Nat), SerializeRow [⟨[97], [49]⟩])], Status.kOK, r)) :=
  ⟨rfl, (c4_read [((5 : Nat), SerializeRow [⟨[97], [49]⟩])] 5 none).2.1 _ rfl⟩

theorem c5_witness :
    StoreSorted [((1 : Nat), SerializeRow [⟨[97], [49]⟩])] ∧
      (∀ e ∈ [((1 : Nat), SerializeRow [⟨[97], [49]⟩])],
        (decodeWith none e.2).isSome) ∧
      ∃ rows, ScanSingle [((1 : Nat), SerializeRow [⟨[97], [49]⟩])] 0 2 none
          = some ([((1 : Nat), SerializeRow [⟨[97], [49]⟩])], Status.kOK, rows) ∧
        rows.length = min 2 (kvSeek [((1 : Nat), SerializeRow [⟨[97], [49]⟩])] 0).length := by
  have h := c5_scan [((1 : Nat), SerializeRow [⟨[97], [49]⟩])] 0 2 none
    (by simp [StoreSorted]) (by decide)
  obtain ⟨rows, h1, h2, _⟩ := h
  exact ⟨by simp [StoreSorted], by decide, rows, h1, h2⟩

theorem c6_witness :
    WfRow [⟨[97], [57]⟩] ∧
      ReadSingle ((UpdateSingle ((InsertSingle ([] : Store Nat) 0
            [⟨[97], [49]⟩]).1) 0 [⟨[97], [57]⟩]).1) 0 none
        = some ((UpdateSingle ((InsertSingle ([] : Store Nat) 0
            [⟨[97], [49]⟩]).1) 0 [⟨[97], [57]⟩]).1, Status.kOK, [⟨[97], [57]⟩]) :=
  ⟨by decide,
    (c6_update_eq_insert [] 0 [⟨[97], [49]⟩] [⟨[97], [57]⟩] (by decide)).2⟩

theorem c7_witness :
    kvGet [((0 : Nat), SerializeRow [⟨[97], [49]⟩])] 0
        = some (SerializeRow [⟨[97], [49]⟩]) ∧
      decodeWith none (SerializeRow [⟨[97], [49]⟩]) = some [⟨[97], [49]⟩] ∧
      ReadSingle (DeleteSingle [((0 : Nat), SerializeRow [⟨[97], [49]⟩])] 0).1 0 none
        = some ((DeleteSingle [((0 : Nat), SerializeRow [⟨[97], [49]⟩])] 0).1,
            Status.kOK, [⟨[97], [49]⟩]) :=
  ⟨rfl, by decide,
    (c7_delete_noop [((0 : Nat), SerializeRow [⟨[97], [49]⟩])] 0 none).2.2
      _ _ rfl (by decide)⟩

/-- The shared static state of the adapter class: whether the static pointer
`db_` is non-null (`dbPtr`), whether the object it points to is still a live
open handle (`dbLive` — C++ `delete` frees the object but does not null the
pointer), the parameters the handle was opened with, and the reference
counter `ref_cnt_`. -/
structure LCState where
  dbPtr : Bool
  dbLive : Bool
  dbPath : String
  dbPages : Nat
  refCnt : Int
deriving DecidableEq

/-- The process-startup state: `db_ = nullptr`, `ref_cnt_ = 0`. -/
def initLCState : LCState :=
  { dbPtr := false, dbLive := false, dbPath := "", dbPages := 0, refCnt := 0 }

/-- BTreeDB::Init projected onto the shared static state (the per-instance
method-pointer table and `fieldcount_` assignments touch no shared state).
`dbname` and `poolSize` are the `btree.dbname` and `btree.pool_size`
properties, `none` meaning the property is absent so the defaults `""` and
`134217728` apply; `pageSize` is the engine's compile-time `PAGE_SIZE`
constant (engine-side, hence a parameter). `ref_cnt_` is incremented BEFORE
the `db_` check and the path validation; the thrown `utils::Exception` on a
missing path is `Except.error`. The `Bool` reports whether this call opened
the handle (`new cmudb::KVTable(db_path, page_num)`). -/
def Init (pageSize : Nat) (dbname : Option String) (poolSize : Option Nat)
    (st : LCState) : LCState × Except String Bool :=
  let st1 : LCState := { st with refCnt := st.refCnt + 1 }
  if st1.dbPtr then (st1, Except.ok false)
  else
    let path := dbname.getD ""
    if path = "" then (st1, Except.error "BTree db path is missing")
    else
      let pool := poolSize.getD 134217728
      ({ st1 with
          dbPtr := true
          dbLive := true
          dbPath := path
          dbPages := pool / pageSize }, Except.ok true)

/-- BTreeDB::Cleanup: decrement the counter; if it is non-zero return early,
otherwise `delete db_`, which frees the handle (`dbLive := false`) but does
NOT null the pointer (`dbPtr` is kept as is). The `Bool` reports whether the
delete branch was reached. -/
def Cleanup (st : LCState) : LCState × Bool :=
  let st1 : LCState := { st with refCnt := st.refCnt - 1 }
  if st1.refCnt = 0 then ({ st1 with dbLive := false }, true)
  else (st1, false)

/-- C8 (code-bug evidence): after one balanced Acquire/Release episode from
process startup, Cleanup reaches the delete (`true`) but leaves `db_`
non-null with no live handle behind it, so a subsequent Acquire does NOT
start from a no-handle state: it sees the stale pointer, opens nothing
(`Except.ok false`), and still no live handle exists afterwards. -/
theorem c8_stale_handle_after_release :
    ((Cleanup (Init 4096 (some "d") none initLCState).1).2 = true) ∧
    ((Cleanup (Init 4096 (some "d") none initLCState).1).1.dbPtr = true) ∧
    ((Cleanup (Init 4096 (some "d") none initLCState).1).1.dbLive = false) ∧
    ((Init 4096 (some "d") none
        (Cleanup (Init 4096 (some "d") none initLCState).1).1).2
      = Except.ok false) ∧
    ((Init 4096 (some "d") none
        (Cleanup (Init 4096 (some "d") none initLCState).1).1).1.dbLive
      = false) :=
  ⟨by decide, by decide, by decide, by simp [Init, Cleanup, initLCState],
    by decide⟩

/-- C9: with no handle yet, a missing storage path makes Init fail with the
fatal configuration error before anything is opened, while a present path
opens the handle with that path and `poolSize / pageSize` pages, the pool
size defaulting to 134217728 when the `btree.pool_size` property is absent. -/
theorem c9_config (pageSize poolSize : Nat) (path : String) (st : LCState)
    (h : st.dbPtr = false) :
    ((Init pageSize none (some poolSize) st).2
        = Except.error "BTree db path is missing" ∧
      (Init pageSize none (some poolSize) st).1.dbPtr = false ∧
      (Init pageSize none (some poolSize) st).1.dbLive = st.dbLive) ∧
    (path ≠ "" →
      (Init pageSize (some path) (some poolSize) st).2 = Except.ok true ∧
      (Init pageSize (some path) (some poolSize) st).1.dbPath = path ∧
      (Init pageSize (some path) (some poolSize) st).1.dbPages
        = poolSize / pageSize) ∧
    (path ≠ "" →
      (Init pageSize (some path) none st).1.dbPages = 134217728 / pageSize) := by
  refine ⟨?_, fun hp => ?_, fun hp => ?_⟩
  · simp [Init, h]
  · simp [Init, h, hp]
  · simp [Init, h, hp]

theorem c9_witness :
    initLCState.dbPtr = false ∧ ("d" : String) ≠ "" ∧
      (Init 4096 (some "d") (some 8192) initLCState).2 = Except.ok true ∧
      (Init 4096 (some "d") (some 8192) initLCState).1.dbPages = 8192 / 4096 := by
  refine ⟨rfl, by decide, ?_, ?_⟩
  · exact ((c9_config 4096 8192 "d" initLCState rfl).2.1 (by decide)).1
  · exact ((c9_config 4096 8192 "d" initLCState rfl).2.1 (by decide)).2.2

/-- C10: Init increments `ref_cnt_` before validating the path, so an
Acquire that fails with the missing-path error still leaves the counter
incremented; after such a failed Acquire from startup, a single Release
already brings the counter to 0 and reaches the delete branch, although no
Acquire ever succeeded — the counter has decremented past the number of
successful Acquires. -/
theorem c10_increment_before_validate (pageSize : Nat) (poolSize : Option Nat)
    (st : LCState) (h : st.dbPtr = false) :
    ((Init pageSize none poolSize st).2
        = Except.error "BTree db path is missing") ∧
    (Init pageSize none poolSize st).1.refCnt = st.refCnt + 1 ∧
    ((Cleanup (Init pageSize none poolSize initLCState).1).1.refCnt = 0 ∧
      (Cleanup (Init pageSize none poolSize initLCState).1).2 = true ∧
      (Init pageSize none poolSize initLCState).2
        = Except.error "BTree db path is missing") := by
  refine ⟨?_, ?_, ?_, ?_, ?_⟩ <;> simp [Init, Cleanup, initLCState, h]

theorem c10_witness :
    initLCState.dbPtr = false ∧
      (Init 4096 none none initLCState).1.refCnt = initLCState.refCnt + 1 :=
  ⟨rfl, (c10_increment_before_validate 4096 none initLCState rfl).2.1⟩

end BTreeDB
